import Mathlib

/-!
Shallow embedding of the TravelEase server (Express + MongoDB backend).

The model follows the main server file (the complete variant that carries all
endpoints: users, vehicles, bookings, stats).  Conventions of the embedding:

* MongoDB ObjectIds are opaque store-generated identifiers, modelled as `Nat`;
  the `ObjectId.isValid` / parse step of the handlers is modelled by taking an
  already-parsed identifier (handlers receive the parsed id; the invalid-id
  branch returns 400 before any store access and is outside the claims below,
  which all speak of syntactically valid identifiers).
* JavaScript `Date` timestamps are modelled as `Nat`.
* A JSON request-body field is `Option τ` with `none` for an absent field
  (JavaScript `undefined`); JavaScript falsiness of the empty string is
  modelled explicitly where the code tests truthiness of a string value.
  The `pricePerDay` body field, whose handlers distinguish the raw value's
  truthiness from its `Number` coercion, gets the dedicated type `RawPrice`;
  a stored JavaScript number (which can be NaN) is a `JsNum`.  The
  `totalPrice` of a booking body is `Option Int` with `none` for an absent
  or non-numeric value (its `Number` coercion is stored verbatim and never
  branched on).  Numeric query parameters are modelled after `Number`
  parsing as `Option Int`, `none` standing for an absent or empty
  parameter; a non-numeric numeric-parameter string is outside the model.
* Stored documents that the creation handler writes without a default keep
  `Option String` fields (an absent body field is stored as a missing field);
  fields the handler always fills are plain values.
* A MongoDB collection is a `List` of documents; `findOne` is `List.find?`,
  `insertOne` appends, `updateOne` rewrites the first match, `deleteOne`
  removes the first match.  MongoDB's sorts give no stability guarantee, so
  any order consistent with the sort keys is faithful; the model uses
  `List.insertionSort`.
-/

/-- A stored JavaScript number: NaN or an integer (the prices the handlers
produce are `Number` coercions of client input, so NaN is representable and
`PATCH /vehicles/:id` can indeed store it). -/
inductive JsNum where
  | nan
  | num (n : Int)
deriving DecidableEq

/-- MongoDB's comparison order on number values: NaN sorts below every
number (and equals itself). -/
def jsNumLe : JsNum → JsNum → Bool
  | .nan, _ => true
  | .num _, .nan => false
  | .num a, .num b => a ≤ b

/-- "Non-negative numeric": what the spec asserts of a stored
`pricePerDay`.  NaN is not a non-negative number. -/
def jsNonNeg : JsNum → Bool
  | .num n => decide (0 ≤ n)
  | .nan => false

/-- The raw `pricePerDay` field of a request body, classified by exactly
what the handlers test: the raw value's JavaScript truthiness and its
`Number` coercion.  `falsy` is a falsy raw value (absent, null, the empty
string, the number 0, raw NaN); `ofNum n` is a truthy raw value coercing to
the number `n` (the string "0" is truthy and coerces to 0, so `ofNum 0` is
inhabited); `nonNum` is a truthy raw value coercing to NaN (a non-numeric
string). -/
inductive RawPrice where
  | falsy
  | ofNum (n : Int)
  | nonNum
deriving DecidableEq

/-- A stored vehicle document (collection `vehicles`). -/
structure Vehicle where
  vid : Nat
  vehicleName : Option String
  owner : Option String
  category : Option String
  pricePerDay : JsNum
  location : Option String
  availability : String
  description : String
  coverImage : String
  userEmail : String
  createdAt : Nat
  updatedAt : Nat
deriving DecidableEq

/-- A stored booking document (collection `bookings`). -/
structure Booking where
  vehicleId : Nat
  userEmail : String
  startDate : Option String
  endDate : Option String
  totalPrice : Option Int
  createdAt : Nat
deriving DecidableEq

/-- A stored user document (collection `users`).  The handler spreads the whole
request body into the document; only `email` and `createdAt` are ever read
back, so the model keeps exactly those. -/
structure User where
  email : String
  createdAt : Nat
deriving DecidableEq

/-- The three collections of the database `travelease_db`. -/
structure Store where
  vehicles : List Vehicle
  bookings : List Booking
  users : List User
deriving DecidableEq

def emptyStore : Store := ⟨[], [], []⟩

/-- JavaScript `x || d` on an optional string: absent or empty is falsy. -/
def jsOrDefault (x : Option String) (d : String) : String :=
  match x with
  | some v => if v = "" then d else v
  | none => d

/-- Request body of `POST /vehicles` and of `PATCH /vehicles/:id`.
`userEmail` is listed because a client may supply it; the create handler
ignores it and the patch handler spreads it into `$set`. -/
structure VehicleBody where
  vehicleName : Option String := none
  owner : Option String := none
  category : Option String := none
  pricePerDay : RawPrice := .falsy
  location : Option String := none
  availability : Option String := none
  description : Option String := none
  coverImage : Option String := none
  userEmail : Option String := none
deriving DecidableEq

/-- `POST /vehicles` (authenticated).  Mirrors the handler: the document is
built from the body with `pricePerDay: Number(data.pricePerDay) || 0`,
defaults for `availability`/`description`/`coverImage`, and
`userEmail: req.token_email` taken from the verified token, never from the
body.  Returns the echoed document and the store after `insertOne`. -/
def postVehicles (body : VehicleBody) (tokenEmail : String) (now newId : Nat)
    (s : Store) : Vehicle × Store :=
  let doc : Vehicle :=
    { vid := newId
      vehicleName := body.vehicleName
      owner := body.owner
      category := body.category
      pricePerDay := match body.pricePerDay with
        | .falsy => JsNum.num 0
        | .ofNum n => JsNum.num n
        | .nonNum => JsNum.num 0
      location := body.location
      availability := jsOrDefault body.availability "Available"
      description := jsOrDefault body.description ""
      coverImage := jsOrDefault body.coverImage ""
      userEmail := tokenEmail
      createdAt := now
      updatedAt := now }
  (doc, { s with vehicles := s.vehicles ++ [doc] })

/-- The `$set` document of `PATCH /vehicles/:id`: the whole request body is
spread into `$set` (a field present in the body is written, one absent is
kept), then `pricePerDay` is overridden by the ternary
`req.body.pricePerDay ? Number(req.body.pricePerDay) : vehicle.pricePerDay`.
The ternary tests the RAW body value's truthiness before coercing: a falsy
raw value (absent, "", 0, NaN) keeps the old price, a truthy raw value
stores its `Number` coercion — the number it denotes, or NaN for a truthy
non-numeric value.  Finally `updatedAt` is refreshed. -/
def applyPatch (v : Vehicle) (b : VehicleBody) (now : Nat) : Vehicle :=
  { vid := v.vid
    vehicleName := match b.vehicleName with | some x => some x | none => v.vehicleName
    owner := match b.owner with | some x => some x | none => v.owner
    category := match b.category with | some x => some x | none => v.category
    pricePerDay := match b.pricePerDay with
      | .falsy => v.pricePerDay
      | .ofNum n => JsNum.num n
      | .nonNum => JsNum.nan
    location := match b.location with | some x => some x | none => v.location
    availability := b.availability.getD v.availability
    description := b.description.getD v.description
    coverImage := b.coverImage.getD v.coverImage
    userEmail := b.userEmail.getD v.userEmail
    createdAt := v.createdAt
    updatedAt := now }

/-- Outcome of an owner-guarded mutation (`PATCH`/`DELETE /vehicles/:id`):
404 Not found, 403 Forbidden, or success. -/
inductive MutResult where
  | notFound
  | forbidden
  | ok
deriving DecidableEq

/-- `updateOne`: rewrite the first element satisfying `p` with `f`. -/
def replaceOne (p : α → Bool) (f : α → α) : List α → List α
  | [] => []
  | x :: xs => if p x then f x :: xs else x :: replaceOne p f xs

/-- `PATCH /vehicles/:id` (authenticated): `findOne` by id, 404 if absent,
403 if the stored `userEmail` differs from the verified token email, else
`updateOne` with the `$set` document of `applyPatch`. -/
def patchVehicle (i : Nat) (tokenEmail : String) (body : VehicleBody)
    (now : Nat) (s : Store) : MutResult × Store :=
  match s.vehicles.find? (fun v => v.vid = i) with
  | none => (.notFound, s)
  | some v =>
    if v.userEmail = tokenEmail then
      let newList := replaceOne (fun w => w.vid = i) (fun w => applyPatch w body now) s.vehicles
      (.ok, { s with vehicles := newList })
    else (.forbidden, s)

/-- `DELETE /vehicles/:id` (authenticated): `findOne` by id, 404 if absent,
403 if the stored `userEmail` differs from the verified token email, else
`deleteOne`. -/
def deleteVehicle (i : Nat) (tokenEmail : String) (s : Store) :
    MutResult × Store :=
  match s.vehicles.find? (fun v => v.vid = i) with
  | none => (.notFound, s)
  | some v =>
    if v.userEmail = tokenEmail then
      (.ok, { s with vehicles := s.vehicles.eraseP (fun w => w.vid = i) })
    else (.forbidden, s)

/-!
### The `location` filter: MongoDB `$regex` with option `i`

`GET /vehicles` puts the raw `location` parameter into
`{ $regex: location, $options: "i" }`: the parameter is interpreted as a
regular expression searched case-insensitively anywhere in the stored
`location` field, not as a literal substring.  The model embeds the fragment
of the regex language the theorems below exercise: a pattern made of literal
characters and the `.` wildcard, searched unanchored.  Every theorem about
the location filter restricts the pattern to this fragment (no `^ $ * + ? (
) [ ] \x7b \x7d | \` metacharacters), on which the model agrees with the
real engine. -/

/-- One token of a regex pattern: the `.` wildcard or a literal character. -/
inductive RTok where
  | anyChar
  | lit (c : Char)
deriving DecidableEq

/-- Tokenise a pattern: `.` is the wildcard, everything else literal. -/
def regexTokens (pat : List Char) : List RTok :=
  pat.map (fun c => if c = '.' then .anyChar else .lit c)

/-- Case-insensitive match of one token against one character. -/
def rtokMatches : RTok → Char → Bool
  | .anyChar, _ => true
  | .lit a, c => a.toLower = c.toLower

/-- Match the token list against a prefix of the character list. -/
def rmatchHere : List RTok → List Char → Bool
  | [], _ => true
  | _ :: _, [] => false
  | t :: ts, c :: cs => rtokMatches t c && rmatchHere ts cs

/-- Unanchored search: match at some position of the character list. -/
def rsearch (ts : List RTok) : List Char → Bool
  | [] => rmatchHere ts []
  | c :: rest => rmatchHere ts (c :: rest) || rsearch ts rest

/-- The `$regex`/`i` test the handler performs on a stored location. -/
def regexSearchI (pat s : String) : Bool :=
  rsearch (regexTokens pat.data) s.data

/-- Characters with a meaning in the regex language. -/
def regexMetachars : List Char :=
  ['.', '^', '$', '*', '+', '?', '(', ')', '[', ']', '\x7b', '\x7d', '|', '\\']

/-- A pattern that is a plain literal: no regex metacharacter occurs in it. -/
def isLiteralPat (pat : String) : Bool :=
  pat.data.all (fun c => !(regexMetachars.contains c))

/-- Case-insensitive equality of a pattern with a prefix of a string
(spec-side building block). -/
def litPrefixAt : List Char → List Char → Bool
  | [], _ => true
  | _ :: _, [] => false
  | p :: ps, c :: cs => (p.toLower = c.toLower) && litPrefixAt ps cs

/-- Case-insensitive substring search (spec-side building block). -/
def litSearch (ps : List Char) : List Char → Bool
  | [] => litPrefixAt ps []
  | c :: rest => litPrefixAt ps (c :: rest) || litSearch ps rest

/-- Spec-side definition, from the spec's words: `location` is a
"case-insensitive substring match" — the pattern occurs inside the stored
location up to character case. -/
def ciSubstr (pat s : String) : Bool :=
  litSearch pat.data s.data

/-- Query parameters of `GET /vehicles`.  A `none` models an absent
parameter; numeric parameters are modelled after `Number` coercion. -/
structure VehiclesQuery where
  category : Option String := none
  location : Option String := none
  minPrice : Option Int := none
  maxPrice : Option Int := none
  userEmail : Option String := none
  sortBy : Option String := none
  sortOrder : Option String := none
  limit : Option Nat := none
deriving DecidableEq

/-- The filter document built by `GET /vehicles`: each parameter adds a
clause only when truthy (present and non-empty for strings), and the clauses
are conjoined.  `category` and `userEmail` are exact equality, `location`
is the `$regex`/`i` search, `minPrice`/`maxPrice` are inclusive bounds under
MongoDB's comparison order, in which a stored NaN sits below every number
(so `$gte` never matches it and `$lte` always does). -/
def vehicleMatches (q : VehiclesQuery) (v : Vehicle) : Bool :=
  (match q.category with
   | some c => if c = "" then true else v.category = some c
   | none => true) &&
  (match q.location with
   | some pat => if pat = "" then true else
       match v.location with
       | some loc => regexSearchI pat loc
       | none => false
   | none => true) &&
  (match q.userEmail with
   | some e => if e = "" then true else v.userEmail = e
   | none => true) &&
  (match q.minPrice with
   | some n => match v.pricePerDay with
     | .num p => decide (n ≤ p)
     | .nan => false
   | none => true) &&
  (match q.maxPrice with
   | some n => match v.pricePerDay with
     | .num p => decide (p ≤ n)
     | .nan => true
   | none => true)

/-- The sort comparator of `GET /vehicles`: one key field, ascending or
descending.  Only the two indexed numeric fields give a real order; any
other `sortBy` value is store-dependent (flagged open in the spec) and is
modelled as the always-true relation, which leaves the order unspecified. -/
def vehicleFieldLe (field : String) (a b : Vehicle) : Bool :=
  if field = "pricePerDay" then jsNumLe a.pricePerDay b.pricePerDay
  else if field = "createdAt" then decide (a.createdAt ≤ b.createdAt)
  else true

/-- The sort relation: `sortOrder === "asc"` sorts ascending, anything else
descending. -/
def vRel (field : String) (asc : Bool) (a b : Vehicle) : Prop :=
  (if asc then vehicleFieldLe field a b else vehicleFieldLe field b a) = true

instance instDecVRel (field : String) (asc : Bool) : DecidableRel (vRel field asc) :=
  fun a b => inferInstanceAs (Decidable (_ = true))

/-- `GET /vehicles`: filter, sort (default `createdAt` descending), and
apply `limit` when truthy (`limit=0` is falsy after `Number`, and MongoDB
`limit(0)` means no limit anyway). -/
def getVehicles (q : VehiclesQuery) (s : Store) : List Vehicle :=
  let sorted := (s.vehicles.filter (vehicleMatches q)).insertionSort
    (vRel (q.sortBy.getD "createdAt") (q.sortOrder.getD "desc" == "asc"))
  match q.limit with
  | some n => if n = 0 then sorted else sorted.take n
  | none => sorted

/-- Request body of `POST /bookings`.  `userEmail` may be supplied by the
client; the handler never reads it. -/
structure BookingBody where
  vehicleId : Option Nat := none
  userEmail : Option String := none
  startDate : Option String := none
  endDate : Option String := none
  totalPrice : Option Int := none
deriving DecidableEq

/-- Outcome of `POST /bookings`: 400 when `vehicleId` is falsy, else the
created document. -/
inductive BookingResult where
  | vehicleIdRequired
  | created (b : Booking)
deriving DecidableEq

/-- `POST /bookings` (authenticated): requires `vehicleId`, then inserts a
document whose `userEmail` is the verified token email.  No check that the
referenced vehicle exists is performed. -/
def postBookings (body : BookingBody) (tokenEmail : String) (now : Nat)
    (s : Store) : BookingResult × Store :=
  match body.vehicleId with
  | none => (.vehicleIdRequired, s)
  | some vid =>
    let doc : Booking :=
      { vehicleId := vid
        userEmail := tokenEmail
        startDate := body.startDate
        endDate := body.endDate
        totalPrice := body.totalPrice
        createdAt := now }
    (.created doc, { s with bookings := s.bookings ++ [doc] })

/-- Request body of `POST /users`: only `email` is inspected. -/
structure UserBody where
  email : Option String := none
deriving DecidableEq

/-- Outcome of `POST /users`: 400 when `email` is falsy, the
"User already exists" signal, or the inserted document. -/
inductive UserResult where
  | emailRequired
  | alreadyExists
  | inserted (u : User)
deriving DecidableEq

/-- `POST /users`: reject a falsy email, answer "User already exists"
without mutation when a user with that email is found, else insert the body
stamped with `createdAt`. -/
def postUsers (body : UserBody) (now : Nat) (s : Store) : UserResult × Store :=
  match body.email with
  | none => (.emailRequired, s)
  | some e =>
    if e = "" then (.emailRequired, s)
    else
      match s.users.find? (fun u => u.email = e) with
      | some _ => (.alreadyExists, s)
      | none =>
        let u : User := { email := e, createdAt := now }
        (.inserted u, { s with users := s.users ++ [u] })

/-- One row of `GET /my-bookings`: a booking with its `$lookup`-joined and
`$unwind`-flattened vehicle. -/
structure MyBookingEntry where
  booking : Booking
  vehicle : Vehicle
deriving DecidableEq

/-- Sort relation of `GET /my-bookings`: `createdAt` descending. -/
def bookRel (a b : MyBookingEntry) : Prop :=
  b.booking.createdAt ≤ a.booking.createdAt

instance instDecBookRel : DecidableRel bookRel :=
  fun a b => inferInstanceAs (Decidable (_ ≤ _))

instance instTotalBookRel : IsTotal MyBookingEntry bookRel :=
  ⟨fun a b => Nat.le_total b.booking.createdAt a.booking.createdAt⟩

instance instTransBookRel : IsTrans MyBookingEntry bookRel :=
  ⟨fun _ _ _ hab hbc => Nat.le_trans hbc hab⟩

/-- `GET /my-bookings` (authenticated): `$match` on the verified token
email, `$lookup` of the vehicle by `_id`, `$unwind` (dropping bookings with
no matching vehicle), `$sort` by `createdAt` descending. -/
def myBookings (tokenEmail : String) (s : Store) : List MyBookingEntry :=
  ((s.bookings.filter (fun b => b.userEmail = tokenEmail)).flatMap
    (fun b => (s.vehicles.filter (fun v => v.vid = b.vehicleId)).map
      (fun v => ⟨b, v⟩))).insertionSort bookRel

/-- One `$group` result of `GET /stats/top-vehicles`: the grouping key
(`vehicleId`), `totalBookings` (`$sum: 1`) and `lastBookingAt`
(`$max: $createdAt`). -/
structure BGroup where
  key : Nat
  totalBookings : Nat
  lastBookingAt : Nat
deriving DecidableEq

/-- `$group: {_id: $vehicleId, ...}`: one group per distinct vehicleId
with its count and maximal `createdAt`. -/
def bookingGroups (bs : List Booking) : List BGroup :=
  ((bs.map (fun b => b.vehicleId)).dedup).map (fun i =>
    { key := i
      totalBookings := (bs.filter (fun b => b.vehicleId = i)).length
      lastBookingAt :=
        ((bs.filter (fun b => b.vehicleId = i)).map (fun b => b.createdAt)).foldr max 0 })

/-- `$sort: {totalBookings: -1, lastBookingAt: -1}` as a relation. -/
def groupRel (a b : BGroup) : Prop :=
  b.totalBookings < a.totalBookings ∨
    (a.totalBookings = b.totalBookings ∧ b.lastBookingAt ≤ a.lastBookingAt)

instance instDecGroupRel : DecidableRel groupRel :=
  fun _ _ => inferInstanceAs (Decidable (_ ∨ _))

instance instTotalGroupRel : IsTotal BGroup groupRel := by
  constructor
  intro a b
  rcases Nat.lt_trichotomy a.totalBookings b.totalBookings with h | h | h
  · exact Or.inr (Or.inl h)
  · rcases Nat.le_total a.lastBookingAt b.lastBookingAt with h2 | h2
    · exact Or.inr (Or.inr ⟨h.symm, h2⟩)
    · exact Or.inl (Or.inr ⟨h, h2⟩)
  · exact Or.inl (Or.inl h)

instance instTransGroupRel : IsTrans BGroup groupRel := by
  constructor
  intro a b c hab hbc
  rcases hab with h1 | ⟨h1, h1'⟩ <;> rcases hbc with h2 | ⟨h2, h2'⟩
  · exact Or.inl (Nat.lt_trans h2 h1)
  · exact Or.inl (h2 ▸ h1)
  · exact Or.inl (h1 ▸ h2)
  · exact Or.inr ⟨h1.trans h2, Nat.le_trans h2' h1'⟩

/-- One row of `GET /stats/top-vehicles` after `$lookup`/`$unwind`/
`$project`: the vehicle's display fields plus the two aggregates. -/
structure TopEntry where
  vid : Nat
  vehicleName : Option String
  category : Option String
  pricePerDay : JsNum
  location : Option String
  coverImage : String
  availability : String
  userEmail : String
  totalBookings : Nat
  lastBookingAt : Nat
deriving DecidableEq

/-- The `$project` stage: flatten a joined vehicle and its group. -/
def topProject (v : Vehicle) (g : BGroup) : TopEntry :=
  { vid := v.vid
    vehicleName := v.vehicleName
    category := v.category
    pricePerDay := v.pricePerDay
    location := v.location
    coverImage := v.coverImage
    availability := v.availability
    userEmail := v.userEmail
    totalBookings := g.totalBookings
    lastBookingAt := g.lastBookingAt }

/-- `const limit = Number(req.query.limit) || 3`: an absent, zero or
non-numeric limit falls back to 3. -/
def effLimit (limit : Option Nat) : Nat :=
  match limit with
  | some n => if n = 0 then 3 else n
  | none => 3

/-- The groups surviving the `$sort`/`$limit` stages of
`GET /stats/top-vehicles`: the first `effLimit limit` groups in descending
(count, last-booking) order. -/
def keptGroups (limit : Option Nat) (s : Store) : List BGroup :=
  ((bookingGroups s.bookings).insertionSort groupRel).take (effLimit limit)

/-- `GET /stats/top-vehicles`: `$group` bookings by `vehicleId`, `$sort` by
count then last booking time (both descending), `$limit`, `$lookup` the
vehicle by `_id`, `$unwind` (dropping groups whose vehicle is gone),
`$project` the flattened view. -/
def topVehicles (limit : Option Nat) (s : Store) : List TopEntry :=
  (keptGroups limit s).flatMap
    (fun g => (s.vehicles.filter (fun v => v.vid = g.key)).map
      (fun v => topProject v g))

/-! ### Generic list lemmas about the model's primitives -/

theorem map_replaceOne (p : α → Bool) (g : α → α) (f : α → β) (l : List α)
    (h : ∀ x, p x = true → f (g x) = f x) :
    (replaceOne p g l).map f = l.map f := by
  induction l with
  | nil => rfl
  | cons x xs ih =>
    by_cases hx : p x = true
    · simp [replaceOne, hx, h x hx]
    · simp [replaceOne, hx, ih]

theorem mem_replaceOne {p : α → Bool} {g : α → α} {x : α} {l : List α}
    (h : x ∈ replaceOne p g l) : x ∈ l ∨ ∃ y ∈ l, p y = true ∧ x = g y := by
  induction l with
  | nil => simp [replaceOne] at h
  | cons a as ih =>
    by_cases ha : p a = true
    · simp only [replaceOne, ha, if_pos] at h
      rcases List.mem_cons.mp h with h | h
      · exact Or.inr ⟨a, List.mem_cons_self a as, ha, h⟩
      · exact Or.inl (List.mem_cons_of_mem a h)
    · simp only [replaceOne, ha, if_neg, Bool.false_eq_true, not_false_iff] at h
      rcases List.mem_cons.mp h with h | h
      · exact Or.inl (h ▸ List.mem_cons_self a as)
      · rcases ih h with h2 | ⟨y, hy, hpy, hxy⟩
        · exact Or.inl (List.mem_cons_of_mem a h2)
        · exact Or.inr ⟨y, List.mem_cons_of_mem a hy, hpy, hxy⟩

theorem find?_replaceOne (p : α → Bool) (g : α → α) (l : List α) (v : α)
    (hfind : l.find? p = some v) (hg : p (g v) = true) :
    (replaceOne p g l).find? p = some (g v) := by
  induction l with
  | nil => simp at hfind
  | cons a as ih =>
    by_cases ha : p a = true
    · rw [List.find?_cons, ha] at hfind
      have hav : a = v := by injection hfind
      subst hav
      simp [replaceOne, ha, List.find?_cons, hg]
    · rw [List.find?_cons] at hfind
      rw [Bool.not_eq_true] at ha
      rw [ha] at hfind
      simp only [replaceOne, ha, Bool.false_eq_true, if_neg, not_false_iff]
      rw [List.find?_cons, ha]
      exact ih hfind

theorem sum_le_length (l : List Nat) (h : ∀ x ∈ l, x ≤ 1) : l.sum ≤ l.length := by
  induction l with
  | nil => simp
  | cons x xs ih =>
    have hx := h x (List.mem_cons_self x xs)
    have := ih (fun y hy => h y (List.mem_cons_of_mem x hy))
    simp only [List.sum_cons, List.length_cons]
    omega

theorem le_foldr_max {x : Nat} {l : List Nat} (h : x ∈ l) : x ≤ l.foldr max 0 := by
  induction l with
  | nil => simp at h
  | cons a as ih =>
    rcases List.mem_cons.mp h with h | h
    · subst h; exact Nat.le_max_left _ _
    · exact Nat.le_trans (ih h) (Nat.le_max_right _ _)

theorem foldr_max_mem (l : List Nat) (h : l ≠ []) : l.foldr max 0 ∈ l := by
  induction l with
  | nil => exact absurd rfl h
  | cons a as ih =>
    cases as with
    | nil => simp
    | cons b bs =>
      have hmem := ih (by simp)
      rcases Nat.le_total ((b :: bs).foldr max 0) a with h2 | h2
      · have heq : (a :: b :: bs).foldr max 0 = a := by
          show max a ((b :: bs).foldr max 0) = a
          exact Nat.max_eq_left h2
        rw [heq]; exact List.mem_cons_self _ _
      · have heq : (a :: b :: bs).foldr max 0 = (b :: bs).foldr max 0 := by
          show max a ((b :: bs).foldr max 0) = _
          exact Nat.max_eq_right h2
        rw [heq]; exact List.mem_cons_of_mem a hmem

theorem pairwise_flatMap_of {α β : Type} {R : α → α → Prop} {S : β → β → Prop}
    (f : α → List β) (l : List α)
    (hl : l.Pairwise R)
    (hin : ∀ a ∈ l, ∀ x ∈ f a, ∀ y ∈ f a, S x y)
    (hcross : ∀ a b, R a b → ∀ x ∈ f a, ∀ y ∈ f b, S x y) :
    (l.flatMap f).Pairwise S := by
  induction l with
  | nil => simp
  | cons a as ih =>
    rw [List.flatMap_cons, List.pairwise_append]
    rcases List.pairwise_cons.mp hl with ⟨hra, htail⟩
    refine ⟨List.pairwise_of_forall_mem_list (hin a (List.mem_cons_self a as)), ?_, ?_⟩
    · exact ih htail (fun b hb => hin b (List.mem_cons_of_mem a hb))
    · intro x hx y hy
      rcases List.mem_flatMap.mp hy with ⟨b, hb, hyb⟩
      exact hcross a b (hra b hb) x hx y hyb

/-! ### The regex model coincides with substring search on literal patterns -/

theorem rmatchHere_eq_litPrefixAt (ps : List Char) (cs : List Char)
    (h : ∀ c ∈ ps, c ≠ '.') :
    rmatchHere (regexTokens ps) cs = litPrefixAt ps cs := by
  induction ps generalizing cs with
  | nil => rfl
  | cons p ps ih =>
    have hp : p ≠ '.' := h p (List.mem_cons_self p ps)
    have htok : regexTokens (p :: ps) = RTok.lit p :: regexTokens ps := by
      simp [regexTokens, hp]
    rw [htok]
    cases cs with
    | nil => rfl
    | cons c cs =>
      show (rtokMatches (RTok.lit p) c && rmatchHere (regexTokens ps) cs) = _
      rw [ih cs (fun x hx => h x (List.mem_cons_of_mem p hx))]
      rfl

theorem rsearch_eq_litSearch (ps : List Char) (cs : List Char)
    (h : ∀ c ∈ ps, c ≠ '.') :
    rsearch (regexTokens ps) cs = litSearch ps cs := by
  induction cs with
  | nil => exact rmatchHere_eq_litPrefixAt ps [] h
  | cons c cs ih =>
    show (rmatchHere (regexTokens ps) (c :: cs) || rsearch (regexTokens ps) cs) = _
    rw [rmatchHere_eq_litPrefixAt ps (c :: cs) h, ih]
    rfl

theorem regexSearchI_eq_ciSubstr (pat s : String)
    (h : isLiteralPat pat = true) :
    regexSearchI pat s = ciSubstr pat s := by
  apply rsearch_eq_litSearch
  intro c hc
  have hall := List.all_eq_true.mp h c hc
  intro hdot
  subst hdot
  simp [regexMetachars] at hall

/-! ### Spec-side filter predicate and `GET /vehicles` characterisation -/

/-- Spec-side predicate, from the spec's words: the conjunction of the
active filters, where `category` and `userEmail` are exact matches,
`location` is a case-insensitive substring match, and `minPrice`/`maxPrice`
are inclusive bounds on `pricePerDay`.  A parameter is active when it is
supplied and non-empty (an empty HTTP query value is the parameter left
blank).  The spec is silent on a stored NaN price, so the bound clauses
follow the store's comparison order (NaN below every number), as in the
handler's filter.  The definition differs from the handler's filter in
exactly one place: the location test is substring containment instead of a
regex search. -/
def specVehicleMatches (q : VehiclesQuery) (v : Vehicle) : Bool :=
  (match q.category with
   | some c => if c = "" then true else v.category = some c
   | none => true) &&
  (match q.location with
   | some pat => if pat = "" then true else
       match v.location with
       | some loc => ciSubstr pat loc
       | none => false
   | none => true) &&
  (match q.userEmail with
   | some e => if e = "" then true else v.userEmail = e
   | none => true) &&
  (match q.minPrice with
   | some n => match v.pricePerDay with
     | .num p => decide (n ≤ p)
     | .nan => false
   | none => true) &&
  (match q.maxPrice with
   | some n => match v.pricePerDay with
     | .num p => decide (p ≤ n)
     | .nan => true
   | none => true)

theorem vehicleMatches_eq_spec (q : VehiclesQuery) (v : Vehicle)
    (hloc : ∀ pat, q.location = some pat → isLiteralPat pat = true) :
    vehicleMatches q v = specVehicleMatches q v := by
  unfold vehicleMatches specVehicleMatches
  cases hq : q.location with
  | none => rfl
  | some pat =>
    cases v.location with
    | none => simp
    | some loc => simp [regexSearchI_eq_ciSubstr pat loc (hloc pat hq)]

theorem mem_getVehicles {q : VehiclesQuery} {s : Store} {v : Vehicle}
    (h : q.limit = none) :
    v ∈ getVehicles q s ↔ v ∈ s.vehicles ∧ vehicleMatches q v = true := by
  unfold getVehicles
  rw [h]
  simp only [List.mem_insertionSort, List.mem_filter]

/-! ### `GET /stats/top-vehicles` characterisation -/

theorem mem_topVehicles {limit : Option Nat} {s : Store} {e : TopEntry} :
    e ∈ topVehicles limit s ↔
      ∃ g ∈ keptGroups limit s,
        ∃ v ∈ s.vehicles, v.vid = g.key ∧ e = topProject v g := by
  unfold topVehicles
  rw [List.mem_flatMap]
  constructor
  · rintro ⟨g, hg, he⟩
    rcases List.mem_map.mp he with ⟨v, hv, hev⟩
    rcases List.mem_filter.mp hv with ⟨hvs, hvk⟩
    exact ⟨g, hg, v, hvs, of_decide_eq_true hvk, hev.symm⟩
  · rintro ⟨g, hg, v, hvs, hvk, he⟩
    refine ⟨g, hg, ?_⟩
    rw [he]
    exact List.mem_map_of_mem _ (List.mem_filter.mpr ⟨hvs, decide_eq_true hvk⟩)

theorem mem_bookingGroups {bs : List Booking} {g : BGroup}
    (h : g ∈ bookingGroups bs) :
    g.totalBookings = (bs.filter (fun b => b.vehicleId = g.key)).length
    ∧ g.lastBookingAt =
        ((bs.filter (fun b => b.vehicleId = g.key)).map (fun b => b.createdAt)).foldr max 0
    ∧ ∃ b ∈ bs, b.vehicleId = g.key := by
  rcases List.mem_map.mp h with ⟨i, hi, hg⟩
  subst hg
  rcases List.mem_map.mp (List.mem_dedup.mp hi) with ⟨b, hb, hbi⟩
  exact ⟨rfl, rfl, b, hb, hbi⟩

theorem bookingGroups_complete {bs : List Booking} {b : Booking} (hb : b ∈ bs) :
    ∃ g ∈ bookingGroups bs, g.key = b.vehicleId := by
  refine ⟨_, List.mem_map_of_mem _ (List.mem_dedup.mpr (List.mem_map_of_mem _ hb)), rfl⟩

theorem filter_vid_le_one {l : List Vehicle} (h : (l.map Vehicle.vid).Nodup)
    (k : Nat) : (l.filter (fun v => v.vid = k)).length ≤ 1 := by
  induction l with
  | nil => simp
  | cons x xs ih =>
    rw [List.map_cons, List.nodup_cons] at h
    by_cases hx : x.vid = k
    · have hnil : xs.filter (fun v => v.vid = k) = [] := by
        rw [List.filter_eq_nil_iff]
        intro v hv hvk
        exact h.1 (hx ▸ (of_decide_eq_true hvk) ▸ List.mem_map_of_mem Vehicle.vid hv)
      simp [List.filter_cons, hx, hnil]
    · simp only [List.filter_cons, decide_eq_true_eq, hx, if_neg, not_false_iff]
      exact ih h.2

theorem length_replaceOne (p : α → Bool) (g : α → α) (l : List α) :
    (replaceOne p g l).length = l.length := by
  induction l with
  | nil => rfl
  | cons x xs ih =>
    by_cases hx : p x = true
    · simp [replaceOne, hx]
    · simp [replaceOne, hx, ih]

/-! ### Claim theorems -/

/-- C1: every Vehicle stored (and echoed) by `POST /vehicles` carries the
verified token identity as `userEmail`, regardless of any client-supplied
`userEmail` in the body; the client-supplied value is never what is
stored. -/
theorem claim_C1 (body : VehicleBody) (tokenEmail : String) (now newId : Nat)
    (s : Store) :
    (postVehicles body tokenEmail now newId s).1.userEmail = tokenEmail
    ∧ (postVehicles body tokenEmail now newId s).1 ∈
        (postVehicles body tokenEmail now newId s).2.vehicles
    ∧ ∀ v ∈ (postVehicles body tokenEmail now newId s).2.vehicles,
        v ∉ s.vehicles → v.userEmail = tokenEmail := by
  refine ⟨rfl, ?_, ?_⟩
  · simp [postVehicles]
  · intro v hv hnotv
    simp only [postVehicles, List.mem_append, List.mem_singleton] at hv
    rcases hv with h | h
    · exact absurd h hnotv
    · rw [h]

theorem claim_C1_witness :
    (postVehicles { userEmail := some "evil@x" } "owner@x" 0 1 emptyStore).1.userEmail
      = "owner@x" :=
  (claim_C1 { userEmail := some "evil@x" } "owner@x" 0 1 emptyStore).2.2
    (postVehicles { userEmail := some "evil@x" } "owner@x" 0 1 emptyStore).1
    (by decide) (by decide)

/-- C10 (implicit): every Booking stored by `POST /bookings` carries the
verified token identity as `userEmail`, regardless of any client-supplied
`userEmail` in the body. -/
theorem claim_C10 (body : BookingBody) (tokenEmail : String) (now : Nat)
    (s : Store) :
    ∀ b ∈ (postBookings body tokenEmail now s).2.bookings,
      b ∉ s.bookings → b.userEmail = tokenEmail := by
  intro b hb hnb
  cases hveq : body.vehicleId with
  | none =>
    simp only [postBookings, hveq] at hb
    exact absurd hb hnb
  | some vid =>
    simp only [postBookings, hveq, List.mem_append, List.mem_singleton] at hb
    rcases hb with h | h
    · exact absurd h hnb
    · rw [h]

theorem claim_C10_witness :
    Booking.userEmail ⟨7, "renter@x", none, none, none, 3⟩ = "renter@x" :=
  claim_C10 { vehicleId := some 7, userEmail := some "evil@x" } "renter@x" 3
    emptyStore ⟨7, "renter@x", none, none, none, 3⟩ (by decide) (by decide)

/-- C7: `POST /users` is idempotent per email: registering an email that
already has a User record answers the "already exists" signal and leaves
the store untouched, and registering the same email twice in sequence
leaves exactly one record with that email (never two). -/
theorem claim_C7 (body : UserBody) (now now2 : Nat) (s : Store) :
    (∀ e, body.email = some e → e ≠ "" → (∃ u ∈ s.users, u.email = e) →
        postUsers body now s = (.alreadyExists, s))
    ∧ ∀ e, e ≠ "" →
        ((postUsers ⟨some e⟩ now2 (postUsers ⟨some e⟩ now s).2).2.users.filter
            (fun u => u.email = e)).length
          = max ((s.users.filter (fun u => u.email = e)).length) 1 := by
  constructor
  · intro e he hne ⟨u, hu, hue⟩
    have hsome : (s.users.find? (fun u => u.email = e)).isSome = true :=
      List.find?_isSome.mpr ⟨u, hu, decide_eq_true hue⟩
    rcases hfind : s.users.find? (fun u => u.email = e) with _ | w
    · rw [hfind] at hsome; simp at hsome
    · simp [postUsers, he, hne, hfind]
  · intro e hne
    rcases hfind : s.users.find? (fun u => u.email = e) with _ | w
    · have hnil : s.users.filter (fun u => u.email = e) = [] := by
        rw [List.filter_eq_nil_iff]
        exact List.find?_eq_none.mp hfind
      have hstore1 : (postUsers ⟨some e⟩ now s).2
          = { s with users := s.users ++ [⟨e, now⟩] } := by
        simp [postUsers, hne, hfind]
      have hfind2 : (s.users ++ [(⟨e, now⟩ : User)]).find? (fun u => u.email = e)
          = some ⟨e, now⟩ := by
        rw [List.find?_append, hfind]
        simp
      have hstep2 : (postUsers ⟨some e⟩ now2
            { s with users := s.users ++ [⟨e, now⟩] }).2.users
          = s.users ++ [⟨e, now⟩] := by
        simp [postUsers, hne, hfind2]
      rw [hstore1, hstep2, List.filter_append, hnil]
      simp
    · have hw : w.email = e :=
        of_decide_eq_true (List.find?_some (p := fun (u : User) => decide (u.email = e)) hfind)
      have hmem : w ∈ s.users.filter (fun u => u.email = e) :=
        List.mem_filter.mpr ⟨List.mem_of_find?_eq_some hfind, decide_eq_true hw⟩
      have hpos : 1 ≤ (s.users.filter (fun u => u.email = e)).length :=
        List.length_pos_of_mem hmem
      have hstore1 : (postUsers ⟨some e⟩ now s).2 = s := by
        simp [postUsers, hne, hfind]
      have hstore2 : (postUsers ⟨some e⟩ now2 s).2 = s := by
        simp [postUsers, hne, hfind]
      rw [hstore1, hstore2]
      exact (Nat.max_eq_left hpos).symm

theorem claim_C7_witness :
    ((postUsers ⟨some "a@x"⟩ 2 (postUsers ⟨some "a@x"⟩ 1 emptyStore).2).2.users.filter
        (fun u => u.email = "a@x")).length = 1 := by
  have h := (claim_C7 ⟨some "a@x"⟩ 1 2 emptyStore).2 "a@x" (by decide)
  simpa using h

/-- C3: for `PATCH`/`DELETE /vehicles/:id` with a valid identifier and a
verified caller: an absent Vehicle yields NotFound with the store unchanged;
a Vehicle owned by a different identity yields Forbidden with the store
unchanged; otherwise the mutation is performed (the patched record replaces
the target, the delete removes exactly one record).  The fetch-and-compare
runs strictly before any mutation: both failure branches return the store
untouched. -/
theorem claim_C3 (i : Nat) (tokenEmail : String) (body : VehicleBody)
    (now : Nat) (s : Store) :
    (s.vehicles.find? (fun v => v.vid = i) = none →
      patchVehicle i tokenEmail body now s = (.notFound, s)
      ∧ deleteVehicle i tokenEmail s = (.notFound, s))
    ∧ (∀ v, s.vehicles.find? (fun v => v.vid = i) = some v →
        v.userEmail ≠ tokenEmail →
      patchVehicle i tokenEmail body now s = (.forbidden, s)
      ∧ deleteVehicle i tokenEmail s = (.forbidden, s))
    ∧ (∀ v, s.vehicles.find? (fun v => v.vid = i) = some v →
        v.userEmail = tokenEmail →
      (patchVehicle i tokenEmail body now s).1 = .ok
      ∧ (patchVehicle i tokenEmail body now s).2.vehicles.find? (fun w => w.vid = i)
          = some (applyPatch v body now)
      ∧ (patchVehicle i tokenEmail body now s).2.vehicles.length = s.vehicles.length
      ∧ (deleteVehicle i tokenEmail s).1 = .ok
      ∧ (deleteVehicle i tokenEmail s).2.vehicles.length + 1 = s.vehicles.length) := by
  refine ⟨?_, ?_, ?_⟩
  · intro h
    constructor
    · simp [patchVehicle, h]
    · simp [deleteVehicle, h]
  · intro v hfind hne
    constructor
    · simp [patchVehicle, hfind, hne]
    · simp [deleteVehicle, hfind, hne]
  · intro v hfind heq
    have hvid : v.vid = i :=
      of_decide_eq_true (List.find?_some (p := fun (w : Vehicle) => decide (w.vid = i)) hfind)
    have hmem : v ∈ s.vehicles := List.mem_of_find?_eq_some hfind
    have hpatched : (applyPatch v body now).vid = i := hvid
    refine ⟨?_, ?_, ?_, ?_, ?_⟩
    · simp [patchVehicle, hfind, heq]
    · have hrep := find?_replaceOne (fun w => decide (w.vid = i))
        (fun w => applyPatch w body now) s.vehicles v hfind (decide_eq_true hpatched)
      simp [patchVehicle, hfind, heq, hrep]
    · simp [patchVehicle, hfind, heq, length_replaceOne]
    · simp [deleteVehicle, hfind, heq]
    · have hlen := List.length_eraseP_of_mem
        (p := fun (w : Vehicle) => decide (w.vid = i)) hmem (decide_eq_true hvid)
      have hpos : 0 < s.vehicles.length := List.length_pos_of_mem hmem
      simp only [deleteVehicle, hfind, heq, if_pos]
      omega

theorem claim_C3_witness :
    (patchVehicle 1 "owner@x"
      { pricePerDay := .ofNum 60 } 5
      ⟨[⟨1, some "Car", some "O", some "SUV", JsNum.num 50, some "Dhaka", "Available", "",
          "", "owner@x", 10, 10⟩], [], []⟩).1 = .ok
    ∧ (deleteVehicle 2 "owner@x"
      ⟨[⟨1, some "Car", some "O", some "SUV", JsNum.num 50, some "Dhaka", "Available", "",
          "", "owner@x", 10, 10⟩], [], []⟩) =
        (.notFound,
          ⟨[⟨1, some "Car", some "O", some "SUV", JsNum.num 50, some "Dhaka", "Available", "",
              "", "owner@x", 10, 10⟩], [], []⟩) := by
  constructor
  · exact ((claim_C3 1 "owner@x" { pricePerDay := .ofNum 60 } 5
      ⟨[⟨1, some "Car", some "O", some "SUV", JsNum.num 50, some "Dhaka", "Available", "",
          "", "owner@x", 10, 10⟩], [], []⟩).2.2
      ⟨1, some "Car", some "O", some "SUV", JsNum.num 50, some "Dhaka", "Available", "",
          "", "owner@x", 10, 10⟩ (by decide) (by decide)).1
  · exact ((claim_C3 2 "owner@x" { pricePerDay := .ofNum 60 } 5
      ⟨[⟨1, some "Car", some "O", some "SUV", JsNum.num 50, some "Dhaka", "Available", "",
          "", "owner@x", 10, 10⟩], [], []⟩).1 (by decide)).2

def storeW2 : Store :=
  ⟨[⟨1, none, none, none, JsNum.num 50, none, "Available", "", "", "owner@x", 10, 10⟩], [], []⟩

/-- C2 as stated is false on the code: `PATCH /vehicles/:id` spreads the whole
request body into `$set`, so the owner of a Vehicle created with identity
"owner@x" can send a body carrying `userEmail`, and the stored `userEmail`
becomes "evil@x", no longer the identity that created the record. -/
theorem claim_C2_counterexample :
    ((patchVehicle 1 "owner@x" { userEmail := some "evil@x" } 5
        (postVehicles {} "owner@x" 0 1 emptyStore).2).2.vehicles.map Vehicle.userEmail
      = ["evil@x"])
    ∧ ("evil@x" : String) ≠ "owner@x" := by
  constructor
  · rfl
  · decide

/-- C2 amended: the stored `userEmail` is unchanged by every
`PATCH /vehicles/:id` whose request body does not include a `userEmail`
field (a body that does include one overwrites the stored value, as the
counterexample shows). -/
theorem claim_C2_amended (i : Nat) (tokenEmail : String) (body : VehicleBody)
    (now : Nat) (s : Store) (h : body.userEmail = none) :
    (patchVehicle i tokenEmail body now s).2.vehicles.map Vehicle.userEmail
      = s.vehicles.map Vehicle.userEmail := by
  have hap : ∀ w : Vehicle, (applyPatch w body now).userEmail = w.userEmail := by
    intro w
    simp [applyPatch, h]
  rcases hf : s.vehicles.find? (fun v => v.vid = i) with _ | v
  · simp [patchVehicle, hf]
  · by_cases he : v.userEmail = tokenEmail
    · simp only [patchVehicle, hf, he, if_pos]
      exact map_replaceOne _ _ _ _ (fun x _ => hap x)
    · simp [patchVehicle, hf, he]

theorem claim_C2_amended_witness :
    (patchVehicle 1 "owner@x" { pricePerDay := .ofNum 60 } 5 storeW2).2.vehicles.map
        Vehicle.userEmail = ["owner@x"] :=
  (claim_C2_amended 1 "owner@x" { pricePerDay := .ofNum 60 } 5 storeW2 rfl).trans rfl

def bodyC8 : BookingBody := { vehicleId := some 7 }

/-- C8 as stated is false on the code: `POST /bookings` only requires the
`vehicleId` field to be present and never looks at the vehicles collection,
so with an empty Vehicle Store a booking referencing vehicle 7 is accepted
and stored while no Vehicle with that identifier exists. -/
theorem claim_C8_counterexample :
    (postBookings bodyC8 "renter@x" 3 emptyStore).1
        = .created ⟨7, "renter@x", none, none, none, 3⟩
    ∧ (⟨7, "renter@x", none, none, none, 3⟩ : Booking) ∈
        (postBookings bodyC8 "renter@x" 3 emptyStore).2.bookings
    ∧ (postBookings bodyC8 "renter@x" 3 emptyStore).2.vehicles.all
        (fun v => v.vid != 7) = true := by
  exact ⟨rfl, by decide, rfl⟩

/-- C8 amended: `POST /bookings` rejects a request without a `vehicleId`
(400, store unchanged) and accepts every request whose `vehicleId` is
present, storing the supplied identifier verbatim; it performs no check
that the referenced Vehicle exists in the Vehicle Store, so even at
creation time the stored `vehicleId` may reference no Vehicle. -/
theorem claim_C8_amended (body : BookingBody) (tokenEmail : String) (now : Nat)
    (s : Store) :
    (body.vehicleId = none →
      postBookings body tokenEmail now s = (.vehicleIdRequired, s))
    ∧ ∀ i, body.vehicleId = some i →
      (postBookings body tokenEmail now s).1
        = .created ⟨i, tokenEmail, body.startDate, body.endDate, body.totalPrice, now⟩
      ∧ (postBookings body tokenEmail now s).2.bookings
        = s.bookings ++ [⟨i, tokenEmail, body.startDate, body.endDate, body.totalPrice, now⟩]
      ∧ (postBookings body tokenEmail now s).2.vehicles = s.vehicles := by
  constructor
  · intro h
    simp [postBookings, h]
  · intro i h
    refine ⟨?_, ?_, ?_⟩ <;> simp [postBookings, h]

theorem claim_C8_amended_witness :
    (postBookings bodyC8 "renter@x" 3 emptyStore).2.bookings
      = [⟨7, "renter@x", none, none, none, 3⟩] :=
  (((claim_C8_amended bodyC8 "renter@x" 3 emptyStore).2 7 rfl).2.1).trans rfl

def bodyC9 : VehicleBody := { pricePerDay := .ofNum (-5) }

def storeC9 : Store :=
  ⟨[⟨1, none, none, none, JsNum.num 50, none, "Available", "", "", "o@x", 0, 0⟩], [], []⟩

/-- C9 as stated is false on the code, in two ways.  `POST /vehicles` stores
`Number(data.pricePerDay) || 0`, which keeps a negative client-supplied
number, so the created (and stored) Vehicle has `pricePerDay = -5`.  And
`PATCH /vehicles/:id` tests the raw body value's truthiness before coercing,
so the owner patching with a truthy non-numeric `pricePerDay` stores NaN.
Neither stored value is a non-negative number. -/
theorem claim_C9_counterexample :
    (postVehicles bodyC9 "owner@x" 0 1 emptyStore).1 ∈
      (postVehicles bodyC9 "owner@x" 0 1 emptyStore).2.vehicles
    ∧ (postVehicles bodyC9 "owner@x" 0 1 emptyStore).1.pricePerDay = JsNum.num (-5)
    ∧ jsNonNeg (postVehicles bodyC9 "owner@x" 0 1 emptyStore).1.pricePerDay = false
    ∧ (patchVehicle 1 "o@x" { pricePerDay := .nonNum } 5 storeC9).2.vehicles.map
        (fun v => v.pricePerDay) = [JsNum.nan]
    ∧ jsNonNeg JsNum.nan = false := by
  exact ⟨by decide, rfl, rfl, rfl, rfl⟩

/-- C9 amended: every stored `pricePerDay` being non-negative numeric is
only conditional.  `POST /vehicles` always stores a number (a falsy or
non-numeric body value coerces to 0) but keeps a negative client-supplied
number; `PATCH /vehicles/:id` stores the `Number` coercion of any truthy
body value, which is NaN for a truthy non-numeric one.  Both operations
preserve "non-negative numeric" across the whole store exactly under these
conditions: every client-supplied number is non-negative, and (for PATCH)
the body's `pricePerDay` is not a truthy non-numeric value. -/
theorem claim_C9_amended (tokenEmail : String) (now newId i : Nat) (s : Store)
    (hs : ∀ v ∈ s.vehicles, jsNonNeg v.pricePerDay = true) :
    (∀ body : VehicleBody, (∀ n, body.pricePerDay = .ofNum n → 0 ≤ n) →
      ∀ v ∈ (postVehicles body tokenEmail now newId s).2.vehicles,
        jsNonNeg v.pricePerDay = true)
    ∧ (∀ body : VehicleBody, body.pricePerDay ≠ .nonNum →
        (∀ n, body.pricePerDay = .ofNum n → 0 ≤ n) →
      ∀ v ∈ (patchVehicle i tokenEmail body now s).2.vehicles,
        jsNonNeg v.pricePerDay = true) := by
  constructor
  · intro body hb v hv
    simp only [postVehicles, List.mem_append, List.mem_singleton] at hv
    rcases hv with h | h
    · exact hs v h
    · subst h
      cases hp : body.pricePerDay with
      | falsy => simp [hp, jsNonNeg]
      | ofNum n =>
        simp only [hp, jsNonNeg]
        exact decide_eq_true (hb n hp)
      | nonNum => simp [hp, jsNonNeg]
  · intro body hnn hb v hv
    rcases hf : s.vehicles.find? (fun w => w.vid = i) with _ | w
    · simp only [patchVehicle, hf] at hv
      exact hs v hv
    · by_cases he : w.userEmail = tokenEmail
      · simp only [patchVehicle, hf, he, if_pos] at hv
        rcases mem_replaceOne hv with h | ⟨y, hy, hpy, hxy⟩
        · exact hs v h
        · subst hxy
          show jsNonNeg (applyPatch y body now).pricePerDay = true
          simp only [applyPatch]
          cases hp : body.pricePerDay with
          | falsy => exact hs y hy
          | ofNum n =>
            simp only [jsNonNeg]
            exact decide_eq_true (hb n hp)
          | nonNum => exact absurd hp hnn
      · simp only [patchVehicle, hf, he, if_neg, not_false_iff] at hv
        exact hs v hv

theorem claim_C9_amended_witness :
    jsNonNeg (postVehicles { pricePerDay := .ofNum 50 } "o@x" 0 1
      emptyStore).1.pricePerDay = true :=
  (claim_C9_amended "o@x" 0 1 1 emptyStore (by decide)).1
    { pricePerDay := .ofNum 50 }
    (by intro n hn; simp at hn; omega)
    (postVehicles { pricePerDay := .ofNum 50 } "o@x" 0 1 emptyStore).1 (by decide)

def vLocC4 : Vehicle := ⟨1, none, none, none, JsNum.num 0, some "ab", "Available", "", "", "o@x", 0, 0⟩

def qDotC4 : VehiclesQuery := { location := some "." }

/-- C4 as stated is false on the code: the `location` parameter is passed to
the store as a regular expression, not a literal substring, so the request
`location=.` returns a Vehicle whose stored location "ab" does not contain
the substring "." — the result is not the set picked out by the
case-insensitive-substring conjunction. -/
theorem claim_C4_counterexample :
    vLocC4 ∈ getVehicles qDotC4 ⟨[vLocC4], [], []⟩
    ∧ vLocC4 ∉ (⟨[vLocC4], [], []⟩ : Store).vehicles.filter
        (specVehicleMatches qDotC4) := by
  constructor
  · exact (mem_getVehicles rfl).mpr ⟨by decide, by decide⟩
  · decide

/-- C4 amended: for every store and every combination of the parameters
`category`, `location`, `minPrice`, `maxPrice`, `userEmail` (no `limit`),
provided the `location` pattern contains no regex metacharacter,
`GET /vehicles` returns exactly the records satisfying the conjunction of
the active filters — `category`/`userEmail` exact, `location`
case-insensitive substring, `minPrice`/`maxPrice` inclusive bounds. -/
theorem claim_C4_amended (q : VehiclesQuery) (s : Store)
    (hlim : q.limit = none)
    (hloc : ∀ pat, q.location = some pat → isLiteralPat pat = true) :
    (getVehicles q s).Perm (s.vehicles.filter (specVehicleMatches q)) := by
  unfold getVehicles
  rw [hlim]
  have hfe : s.vehicles.filter (vehicleMatches q)
      = s.vehicles.filter (specVehicleMatches q) :=
    List.filter_congr (fun v _ => vehicleMatches_eq_spec q v hloc)
  show (List.insertionSort _ (s.vehicles.filter (vehicleMatches q))).Perm _
  rw [hfe]
  exact List.perm_insertionSort _ _

def qW4 : VehiclesQuery := { category := some "SUV" }

def vW4a : Vehicle := ⟨1, none, none, some "SUV", JsNum.num 50, none, "Available", "", "", "o@x", 1, 1⟩

def vW4b : Vehicle := ⟨2, none, none, some "Sedan", JsNum.num 80, none, "Available", "", "", "o@x", 2, 2⟩

theorem claim_C4_amended_witness :
    (getVehicles qW4 ⟨[vW4a, vW4b], [], []⟩).Perm [vW4a] := by
  have h := claim_C4_amended qW4 ⟨[vW4a, vW4b], [], []⟩ rfl
    (fun pat hp => by simp [qW4] at hp)
  have hfil : (⟨[vW4a, vW4b], [], []⟩ : Store).vehicles.filter
      (specVehicleMatches qW4) = [vW4a] := by decide
  rw [hfil] at h
  exact h

/-- C6: `GET /my-bookings` returns exactly the caller's Bookings, each joined
with its referenced Vehicle (a Booking whose Vehicle no longer exists is
dropped by the inner join), sorted by `createdAt` descending; with no
matching Booking the result is the empty sequence, not an error. -/
theorem claim_C6 (tokenEmail : String) (s : Store) :
    (∀ e : MyBookingEntry, e ∈ myBookings tokenEmail s ↔
      e.booking ∈ s.bookings ∧ e.booking.userEmail = tokenEmail
        ∧ e.vehicle ∈ s.vehicles ∧ e.vehicle.vid = e.booking.vehicleId)
    ∧ (myBookings tokenEmail s).Pairwise
        (fun a b => b.booking.createdAt ≤ a.booking.createdAt)
    ∧ ((∀ b ∈ s.bookings, b.userEmail ≠ tokenEmail) →
        myBookings tokenEmail s = []) := by
  refine ⟨?_, ?_, ?_⟩
  · intro e
    unfold myBookings
    rw [List.mem_insertionSort, List.mem_flatMap]
    constructor
    · rintro ⟨b, hb, he⟩
      rcases List.mem_filter.mp hb with ⟨hbs, hbe⟩
      rcases List.mem_map.mp he with ⟨v, hv, hev⟩
      rcases List.mem_filter.mp hv with ⟨hvs, hvk⟩
      subst hev
      exact ⟨hbs, of_decide_eq_true hbe, hvs, of_decide_eq_true hvk⟩
    · rintro ⟨hbs, hbe, hvs, hvk⟩
      refine ⟨e.booking, List.mem_filter.mpr ⟨hbs, decide_eq_true hbe⟩, ?_⟩
      have he : e = ⟨e.booking, e.vehicle⟩ := rfl
      rw [he]
      exact List.mem_map_of_mem _ (List.mem_filter.mpr ⟨hvs, decide_eq_true hvk⟩)
  · exact List.sorted_insertionSort bookRel _
  · intro h
    have hnil : s.bookings.filter (fun b => b.userEmail = tokenEmail) = [] := by
      rw [List.filter_eq_nil_iff]
      intro b hb
      simp [h b hb]
    unfold myBookings
    rw [hnil]
    rfl

def storeW6 : Store := ⟨[], [⟨5, "b@x", none, none, none, 1⟩], []⟩

theorem claim_C6_witness : myBookings "a@x" storeW6 = [] :=
  (claim_C6 "a@x" storeW6).2.2 (by decide)

def storeC5 : Store :=
  ⟨[⟨1, some "X", none, none, JsNum.num 0, none, "Available", "", "", "o@x", 0, 0⟩],
   [⟨1, "r@x", none, none, none, 4⟩], []⟩

/-- C5 as stated is false on the code: `Number(req.query.limit) || 3` turns a
supplied limit of 0 into the default 3, so `GET /stats/top-vehicles?limit=0`
— which per the claim should truncate the group list to 0 entries — returns
1 entry on a store with one booked existing vehicle. -/
theorem claim_C5_counterexample :
    (topVehicles (some 0) storeC5).length = 1 := by decide

/-- C5 amended (limit clause corrected: a positive supplied `limit`
truncates to it; an absent or zero `limit` falls back to 3): on a store with
distinct vehicle identifiers, `GET /stats/top-vehicles` returns at most that
many rows.  The `$sort`/`$limit` stages keep exactly
`min limit (number of groups)` groups, and the truncation is maximal in the
(totalBookings, lastBookingAt)-descending order: every group left out is
dominated by every kept group.  Each returned row arises from a kept group:
it carries the display fields of an existing Vehicle with that group's
identifier, `totalBookings` equal to the number of Bookings referencing it
(at least one) and `lastBookingAt` equal to the maximum `createdAt` among
them; conversely every kept group whose Vehicle still exists yields a row
with those aggregates (only groups whose Vehicle is gone are dropped), and
in particular when all groups fit under the limit every booked vehicleId
with a surviving Vehicle is represented.  The rows themselves are ordered by
`totalBookings` descending with ties broken by `lastBookingAt`
descending. -/
theorem claim_C5_amended (limit : Option Nat) (s : Store)
    (hnodup : (s.vehicles.map Vehicle.vid).Nodup) :
    (topVehicles limit s).length ≤ effLimit limit
    ∧ (keptGroups limit s).length
        = min (effLimit limit) (bookingGroups s.bookings).length
    ∧ (∀ g ∈ bookingGroups s.bookings, g ∉ keptGroups limit s →
        ∀ g2 ∈ keptGroups limit s, groupRel g2 g)
    ∧ (∀ e ∈ topVehicles limit s,
        (⟨e.vid, e.totalBookings, e.lastBookingAt⟩ : BGroup) ∈ keptGroups limit s)
    ∧ (∀ g ∈ keptGroups limit s, ∀ v ∈ s.vehicles, v.vid = g.key →
        ∃ e ∈ topVehicles limit s, e.vid = g.key
          ∧ e.totalBookings = g.totalBookings
          ∧ e.lastBookingAt = g.lastBookingAt)
    ∧ (∀ e ∈ topVehicles limit s,
        (∃ v ∈ s.vehicles, v.vid = e.vid
          ∧ e.vehicleName = v.vehicleName ∧ e.category = v.category
          ∧ e.pricePerDay = v.pricePerDay ∧ e.location = v.location
          ∧ e.coverImage = v.coverImage ∧ e.availability = v.availability
          ∧ e.userEmail = v.userEmail)
        ∧ e.totalBookings
            = (s.bookings.filter (fun b => b.vehicleId = e.vid)).length
        ∧ 0 < e.totalBookings
        ∧ (∀ b ∈ s.bookings, b.vehicleId = e.vid → b.createdAt ≤ e.lastBookingAt)
        ∧ (∃ b ∈ s.bookings, b.vehicleId = e.vid ∧ b.createdAt = e.lastBookingAt))
    ∧ (topVehicles limit s).Pairwise
        (fun a b => b.totalBookings < a.totalBookings
          ∨ (a.totalBookings = b.totalBookings ∧ b.lastBookingAt ≤ a.lastBookingAt))
    ∧ (∀ b ∈ s.bookings, (∃ v ∈ s.vehicles, v.vid = b.vehicleId) →
        (bookingGroups s.bookings).length ≤ effLimit limit →
        ∃ e ∈ topVehicles limit s, e.vid = b.vehicleId) := by
  refine ⟨?_, ?_, ?_, ?_, ?_, ?_, ?_, ?_⟩
  · unfold topVehicles keptGroups
    rw [List.length_flatMap]
    refine le_trans (sum_le_length _ ?_) ?_
    · intro n hn
      rcases List.mem_map.mp hn with ⟨g, hg, hng⟩
      rw [← hng]
      simp only [Function.comp_apply, List.length_map]
      exact filter_vid_le_one hnodup g.key
    · rw [List.length_map]
      exact List.length_take_le _ _
  · unfold keptGroups
    rw [List.length_take, List.length_insertionSort]
  · intro g hg hgk g2 hg2
    have hgk2 : g ∉ ((bookingGroups s.bookings).insertionSort groupRel).take
        (effLimit limit) := hgk
    have hg22 : g2 ∈ ((bookingGroups s.bookings).insertionSort groupRel).take
        (effLimit limit) := hg2
    have hmemL : g ∈ ((bookingGroups s.bookings).insertionSort groupRel).take
          (effLimit limit)
        ++ ((bookingGroups s.bookings).insertionSort groupRel).drop
          (effLimit limit) := by
      rw [List.take_append_drop]
      exact (List.mem_insertionSort _).mpr hg
    have hdrop : g ∈ ((bookingGroups s.bookings).insertionSort groupRel).drop
        (effLimit limit) := by
      rcases List.mem_append.mp hmemL with h | h
      · exact absurd h hgk2
      · exact h
    have hpw : (((bookingGroups s.bookings).insertionSort groupRel).take
          (effLimit limit)
        ++ ((bookingGroups s.bookings).insertionSort groupRel).drop
          (effLimit limit)).Pairwise groupRel := by
      rw [List.take_append_drop]
      exact List.sorted_insertionSort groupRel _
    exact (List.pairwise_append.mp hpw).2.2 g2 hg22 g hdrop
  · intro e he
    rcases mem_topVehicles.mp he with ⟨g, hgt, v, hv, hvk, hev⟩
    subst hev
    show (⟨v.vid, g.totalBookings, g.lastBookingAt⟩ : BGroup) ∈ keptGroups limit s
    rw [hvk]
    exact hgt
  · intro g hg v hv hvk
    exact ⟨topProject v g, mem_topVehicles.mpr ⟨g, hg, v, hv, hvk, rfl⟩,
      hvk, rfl, rfl⟩
  · intro e he
    rcases mem_topVehicles.mp he with ⟨g, hgt, v, hvs, hvk, hev⟩
    have hgt2 : g ∈ ((bookingGroups s.bookings).insertionSort groupRel).take
        (effLimit limit) := hgt
    have hgmem : g ∈ bookingGroups s.bookings :=
      (List.mem_insertionSort _).mp ((List.take_sublist _ _).mem hgt2)
    rcases mem_bookingGroups hgmem with ⟨hcount, hlast, b0, hb0, hb0k⟩
    subst hev
    have hb0f : b0 ∈ s.bookings.filter (fun b => b.vehicleId = g.key) :=
      List.mem_filter.mpr ⟨hb0, decide_eq_true hb0k⟩
    refine ⟨⟨v, hvs, rfl, rfl, rfl, rfl, rfl, rfl, rfl, rfl⟩, ?_, ?_, ?_, ?_⟩
    · show g.totalBookings
        = (s.bookings.filter (fun b => b.vehicleId = v.vid)).length
      rw [hvk]
      exact hcount
    · show 0 < g.totalBookings
      rw [hcount]
      exact List.length_pos_of_mem hb0f
    · intro b hb hbk
      show b.createdAt ≤ g.lastBookingAt
      rw [hlast]
      apply le_foldr_max
      apply List.mem_map_of_mem
      refine List.mem_filter.mpr ⟨hb, decide_eq_true ?_⟩
      show b.vehicleId = g.key
      rw [← hvk]
      exact hbk
    · have hne : (s.bookings.filter (fun b => b.vehicleId = g.key)).map
          (fun b => b.createdAt) ≠ [] := by
        intro hcon
        rw [List.map_eq_nil_iff] at hcon
        rw [hcon] at hb0f
        simp at hb0f
      have hmax := foldr_max_mem _ hne
      rcases List.mem_map.mp hmax with ⟨b1, hb1f, hb1c⟩
      rcases List.mem_filter.mp hb1f with ⟨hb1, hb1k⟩
      refine ⟨b1, hb1, ?_, ?_⟩
      · show b1.vehicleId = v.vid
        rw [hvk]
        exact of_decide_eq_true hb1k
      · show b1.createdAt = g.lastBookingAt
        rw [hlast]
        exact hb1c
  · unfold topVehicles keptGroups
    apply pairwise_flatMap_of
    · exact (List.sorted_insertionSort groupRel _).sublist (List.take_sublist _ _)
    · intro g hg x hx y hy
      rcases List.mem_map.mp hx with ⟨v, hv, hxv⟩
      rcases List.mem_map.mp hy with ⟨w, hw, hyw⟩
      subst hxv
      subst hyw
      exact Or.inr ⟨rfl, Nat.le_refl _⟩
    · intro g g2 hrel x hx y hy
      rcases List.mem_map.mp hx with ⟨v, hv, hxv⟩
      rcases List.mem_map.mp hy with ⟨w, hw, hyw⟩
      subst hxv
      subst hyw
      exact hrel
  · rintro b hb ⟨v, hv, hvb⟩ hle
    obtain ⟨g, hg, hgkey⟩ := bookingGroups_complete hb
    have htake : keptGroups limit s
        = (bookingGroups s.bookings).insertionSort groupRel := by
      unfold keptGroups
      apply List.take_of_length_le
      rw [List.length_insertionSort]
      exact hle
    refine ⟨topProject v g, ?_, ?_⟩
    · apply mem_topVehicles.mpr
      refine ⟨g, ?_, v, hv, ?_, rfl⟩
      · rw [htake]
        exact (List.mem_insertionSort _).mpr hg
      · rw [hgkey]
        exact hvb
    · show v.vid = b.vehicleId
      exact hvb

def storeW5 : Store :=
  ⟨[⟨1, some "X", none, none, JsNum.num 0, none, "Available", "", "", "o@x", 0, 0⟩,
    ⟨2, some "Y", none, none, JsNum.num 0, none, "Available", "", "", "o@x", 0, 0⟩],
   [⟨1, "r@x", none, none, none, 4⟩, ⟨1, "r@x", none, none, none, 9⟩,
    ⟨1, "q@x", none, none, none, 2⟩, ⟨2, "r@x", none, none, none, 7⟩], []⟩

theorem claim_C5_amended_witness :
    (topVehicles (some 1) storeW5).length ≤ 1
    ∧ ∃ e ∈ topVehicles (some 1) storeW5,
        e.vid = 1 ∧ e.totalBookings = 3 ∧ e.lastBookingAt = 9 := by
  constructor
  · exact (claim_C5_amended (some 1) storeW5 (by decide)).1
  · exact (claim_C5_amended (some 1) storeW5 (by decide)).2.2.2.2.1
      ⟨1, 3, 9⟩ (by decide)
      ⟨1, some "X", none, none, JsNum.num 0, none, "Available", "", "", "o@x", 0, 0⟩
      (by decide) rfl
